import Mathlib

/-!
Shallow embedding of the griffin-notebook customization shims:
the tree-path opener command (regex match, percent-decoding, query parsing),
the theme policy, the menu policy, the shell subclass, and the application
constructor.  Strings are modelled as lists of Unicode characters.
-/

namespace GriffinNotebook

/-- Hexadecimal value of a character, as used by the ECMAScript `Decode`
abstract operation underlying `decodeURIComponent` (both cases accepted). -/
def hexVal (c : Char) : Option Nat :=
  if '0' ≤ c ∧ c ≤ '9' then some (c.toNat - 48)
  else if 'A' ≤ c ∧ c ≤ 'F' then some (c.toNat - 55)
  else if 'a' ≤ c ∧ c ≤ 'f' then some (c.toNat - 87)
  else none

/-- ECMAScript line terminators, which the regular-expression atom `.`
(as in the `(.*)` group of `TREE_PATTERN`) does not match. -/
def isLineTerm (c : Char) : Bool :=
  c = '\n' ∨ c = '\r' ∨ c.toNat = 0x2028 ∨ c.toNat = 0x2029

/-- ECMAScript `decodeURIComponent`, per the `Decode` abstract operation
with an empty reserved set: characters other than `%` pass through; a `%`
must be followed by two hex digits giving a byte; a byte with the high bit
set starts a UTF-8 sequence whose continuation bytes must each come from a
further `%XX` escape, and the assembled octets must be a valid (shortest
form, non-surrogate, in-range) UTF-8 encoding of a code point.
`none` models the `URIError` throw. -/
def decodeURIComponent : List Char → Option (List Char)
  | [] => some []
  | '%' :: h1 :: h2 :: rest =>
    match hexVal h1, hexVal h2 with
    | some a, some b =>
      let B := 16 * a + b
      if B < 0x80 then
        (decodeURIComponent rest).map (fun t => Char.ofNat B :: t)
      else if B < 0xC0 then none
      else if B < 0xE0 then
        match rest with
        | '%' :: g1 :: g2 :: rest2 =>
          match hexVal g1, hexVal g2 with
          | some a1, some b1 =>
            let B1 := 16 * a1 + b1
            if 0x80 ≤ B1 ∧ B1 < 0xC0 then
              let V := (B - 0xC0) * 0x40 + (B1 - 0x80)
              if 0x80 ≤ V then
                (decodeURIComponent rest2).map (fun t => Char.ofNat V :: t)
              else none
            else none
          | _, _ => none
        | _ => none
      else if B < 0xF0 then
        match rest with
        | '%' :: g1 :: g2 :: '%' :: k1 :: k2 :: rest2 =>
          match hexVal g1, hexVal g2, hexVal k1, hexVal k2 with
          | some a1, some b1, some a2, some b2 =>
            let B1 := 16 * a1 + b1
            let B2 := 16 * a2 + b2
            if (0x80 ≤ B1 ∧ B1 < 0xC0) ∧ (0x80 ≤ B2 ∧ B2 < 0xC0) then
              let V := (B - 0xE0) * 0x1000 + (B1 - 0x80) * 0x40 + (B2 - 0x80)
              if 0x800 ≤ V ∧ ¬(0xD800 ≤ V ∧ V < 0xE000) then
                (decodeURIComponent rest2).map (fun t => Char.ofNat V :: t)
              else none
            else none
          | _, _, _, _ => none
        | _ => none
      else if B < 0xF8 then
        match rest with
        | '%' :: g1 :: g2 :: '%' :: k1 :: k2 :: '%' :: m1 :: m2 :: rest2 =>
          match hexVal g1, hexVal g2, hexVal k1, hexVal k2, hexVal m1, hexVal m2 with
          | some a1, some b1, some a2, some b2, some a3, some b3 =>
            let B1 := 16 * a1 + b1
            let B2 := 16 * a2 + b2
            let B3 := 16 * a3 + b3
            if (0x80 ≤ B1 ∧ B1 < 0xC0) ∧ (0x80 ≤ B2 ∧ B2 < 0xC0) ∧
                (0x80 ≤ B3 ∧ B3 < 0xC0) then
              let V := (B - 0xF0) * 0x40000 + (B1 - 0x80) * 0x1000 +
                (B2 - 0x80) * 0x40 + (B3 - 0x80)
              if 0x10000 ≤ V ∧ V ≤ 0x10FFFF then
                (decodeURIComponent rest2).map (fun t => Char.ofNat V :: t)
              else none
            else none
          | _, _, _, _, _, _ => none
        | _ => none
      else none
    | _, _ => none
  | '%' :: _ => none
  | c :: rest => (decodeURIComponent rest).map (fun t => c :: t)

/-- The literal segment of `TREE_PATTERN`:
the regular expression `new RegExp('/(griffin-notebooks)/(.*)')` consists of
this literal followed by the capture group `(.*)`. -/
def treeSegStr : List Char := "/griffin-notebooks/".data

/-- `path.match(TREE_PATTERN)`, reduced to its second capture group (the one
the opener destructures as `path`).  JavaScript `String.prototype.match`
with a non-global pattern finds the leftmost position at which the pattern
matches; the pattern matches at a position exactly when the literal
`/griffin-notebooks/` occurs there, and `(.*)` then greedily captures the
following characters up to the end of the string or the first line
terminator.  `none` models a null match result. -/
def treeMatch : List Char → Option (List Char)
  | [] => none
  | c :: rest =>
    if treeSegStr.isPrefixOf (c :: rest) then
      some (((c :: rest).drop treeSegStr.length).takeWhile (fun ch => !isLineTerm ch))
    else treeMatch rest

/-- UTF-8 encoding of a Unicode scalar value, byte by byte (used because the
WHATWG `application/x-www-form-urlencoded` parser behind `URLSearchParams`
operates on the UTF-8 bytes of its input). -/
def charUtf8 (c : Char) : List Nat :=
  let n := c.toNat
  if n < 0x80 then [n]
  else if n < 0x800 then [0xC0 + n / 0x40, 0x80 + n % 0x40]
  else if n < 0x10000 then
    [0xE0 + n / 0x1000, 0x80 + (n / 0x40) % 0x40, 0x80 + n % 0x40]
  else
    [0xF0 + n / 0x40000, 0x80 + (n / 0x1000) % 0x40,
      0x80 + (n / 0x40) % 0x40, 0x80 + n % 0x40]

/-- UTF-8 encoding of a string as a byte list. -/
def strUtf8 (l : List Char) : List Nat := l.flatMap charUtf8

/-- Hexadecimal value of a byte (ASCII digit or letter), for the WHATWG
percent-decode algorithm. -/
def hexValByte (b : Nat) : Option Nat :=
  if 0x30 ≤ b ∧ b ≤ 0x39 then some (b - 0x30)
  else if 0x41 ≤ b ∧ b ≤ 0x46 then some (b - 0x37)
  else if 0x61 ≤ b ∧ b ≤ 0x66 then some (b - 0x57)
  else none

/-- WHATWG percent-decode on bytes: `0x25` followed by two hex-digit bytes
becomes the denoted byte; any other byte (including a `0x25` not followed by
two hex digits) is copied through unchanged.  Unlike `decodeURIComponent`,
this never fails. -/
def percentDecodeBytes : List Nat → List Nat
  | [] => []
  | b :: h1 :: h2 :: rest =>
    if b = 0x25 then
      match hexValByte h1, hexValByte h2 with
      | some x, some y => (16 * x + y) :: percentDecodeBytes rest
      | _, _ => b :: percentDecodeBytes (h1 :: h2 :: rest)
    else b :: percentDecodeBytes (h1 :: h2 :: rest)
  | b :: rest => b :: percentDecodeBytes rest

/-- The Unicode replacement character U+FFFD. -/
def replChar : Char := Char.ofNat 0xFFFD

/-- WHATWG UTF-8 decode with replacement: invalid bytes and truncated or
ill-formed sequences produce U+FFFD, with the standard's second-byte range
restrictions (E0/ED and F0/F4 special cases) and reconsumption of a byte
that fails a continuation check. -/
def utf8DecodeRepl : List Nat → List Char
  | [] => []
  | b :: rest =>
    if b ≤ 0x7F then Char.ofNat b :: utf8DecodeRepl rest
    else if 0xC2 ≤ b ∧ b ≤ 0xDF then
      match rest with
      | [] => [replChar]
      | b1 :: rest1 =>
        if 0x80 ≤ b1 ∧ b1 ≤ 0xBF then
          Char.ofNat ((b - 0xC0) * 0x40 + (b1 - 0x80)) :: utf8DecodeRepl rest1
        else replChar :: utf8DecodeRepl (b1 :: rest1)
    else if 0xE0 ≤ b ∧ b ≤ 0xEF then
      match rest with
      | [] => [replChar]
      | b1 :: rest1 =>
        if (if b = 0xE0 then 0xA0 else 0x80) ≤ b1 ∧
            b1 ≤ (if b = 0xED then 0x9F else 0xBF) then
          match rest1 with
          | [] => [replChar]
          | b2 :: rest2 =>
            if 0x80 ≤ b2 ∧ b2 ≤ 0xBF then
              Char.ofNat ((b - 0xE0) * 0x1000 + (b1 - 0x80) * 0x40 + (b2 - 0x80)) ::
                utf8DecodeRepl rest2
            else replChar :: utf8DecodeRepl (b2 :: rest2)
        else replChar :: utf8DecodeRepl (b1 :: rest1)
    else if 0xF0 ≤ b ∧ b ≤ 0xF4 then
      match rest with
      | [] => [replChar]
      | b1 :: rest1 =>
        if (if b = 0xF0 then 0x90 else 0x80) ≤ b1 ∧
            b1 ≤ (if b = 0xF4 then 0x8F else 0xBF) then
          match rest1 with
          | [] => [replChar]
          | b2 :: rest2 =>
            if 0x80 ≤ b2 ∧ b2 ≤ 0xBF then
              match rest2 with
              | [] => [replChar]
              | b3 :: rest3 =>
                if 0x80 ≤ b3 ∧ b3 ≤ 0xBF then
                  Char.ofNat ((b - 0xF0) * 0x40000 + (b1 - 0x80) * 0x1000 +
                    (b2 - 0x80) * 0x40 + (b3 - 0x80)) :: utf8DecodeRepl rest3
                else replChar :: utf8DecodeRepl (b3 :: rest3)
            else replChar :: utf8DecodeRepl (b2 :: rest2)
        else replChar :: utf8DecodeRepl (b1 :: rest1)
    else replChar :: utf8DecodeRepl rest

/-- Decoding of one `application/x-www-form-urlencoded` name or value:
replace `+` (0x2B) with space (0x20) in the UTF-8 bytes, percent-decode,
then UTF-8 decode with replacement. -/
def formDecode (l : List Char) : List Char :=
  utf8DecodeRepl (percentDecodeBytes
    ((strUtf8 l).map (fun b => if b = 0x2B then 0x20 else b)))

/-- Split a character list on `&`, as the urlencoded parser splits its
input into name-value byte sequences. -/
def splitAmp : List Char → List (List Char)
  | [] => [[]]
  | c :: rest =>
    if c = '&' then [] :: splitAmp rest
    else
      match splitAmp rest with
      | [] => [[c]]
      | s :: ss => (c :: s) :: ss

/-- Split one name-value sequence at its first `=`; a sequence without `=`
is all name with an empty value. -/
def splitEq : List Char → List Char × List Char
  | [] => ([], [])
  | c :: rest =>
    if c = '=' then ([], rest)
    else
      let p := splitEq rest
      (c :: p.1, p.2)

/-- The `URLSearchParams` constructor's parse of a query string: a leading
`?` is removed, the rest is split on `&`, empty sequences are skipped, and
each sequence is split at its first `=` into a name and value which are
form-urlencoded decoded. -/
def queryPairs (search : List Char) : List (List Char × List Char) :=
  let q := match search with
    | '?' :: rest => rest
    | l => l
  ((splitAmp q).filter (fun s => !s.isEmpty)).map
    (fun s => (formDecode (splitEq s).1, formDecode (splitEq s).2))

/-- `URLSearchParams.get(key)`: the value of the first pair whose name is
`key`, or `none` for JavaScript null when no pair has that name. -/
def queryGet (key search : List Char) : Option (List Char) :=
  (queryPairs search).findSome?
    (fun p => if p.1 = key then some p.2 else none)

/-- The name of the query parameter the opener consumes. -/
def factoryKey : List Char := "factory".data

/-- `urlParams.get('factory') ?? 'default'` from the opener: the factory
name resolved for a query string (`??` substitutes the default only when
`get` returned null, not when it returned an empty string). -/
def getFactoryParam (search : List Char) : List Char :=
  (queryGet factoryKey search).getD "default".data

/-- The routed location handed to the `router:tree` command: the
`IRouter.ILocation` fields the command reads (`path` and `search`). -/
structure RouteLocation where
  path : List Char
  search : List Char
deriving DecidableEq, Repr

/-- The document-open request the opener eventually issues through the
document manager: `docManager.open(file, factory, undefined, { ref: '_noref' })`. -/
structure OpenRequest where
  file : List Char
  factory : List Char
  ref : List Char
deriving DecidableEq, Repr

/-- Outcome of one run of the `router:tree` command: no action (early
return), a document-open request scheduled for after the application's
`started` promise, or a thrown `URIError` from `decodeURIComponent`. -/
inductive ExecResult where
  | noAction : ExecResult
  | opened : OpenRequest → ExecResult
  | thrown : ExecResult
deriving DecidableEq, Repr

/-- The body of the `router:tree` command registered by the opener plugin:
match the location's path against `TREE_PATTERN` (a null match yields an
empty array, so the destructured capture is undefined); return when the
capture is undefined or empty; otherwise percent-decode the capture, read
the `factory` query parameter with default `'default'`, and request that
the document be opened with `ref: '_noref'`. -/
def routerTreeExecute (parsed : RouteLocation) : ExecResult :=
  match treeMatch parsed.path with
  | none => ExecResult.noAction
  | some cap =>
    if cap.isEmpty then ExecResult.noAction
    else
      match decodeURIComponent cap with
      | none => ExecResult.thrown
      | some file =>
        ExecResult.opened
          { file := file, factory := getFactoryParam parsed.search,
            ref := "_noref".data }

/-- The dark theme identifier used by the theme plugin. -/
def darkThemeName : List Char := "JupyterLab Dark".data

/-- The light theme identifier used by the theme plugin. -/
def lightThemeName : List Char := "JupyterLab Light".data

/-- The theme selection of the theme plugin's activate function: the theme
name passed to `themeManager.setTheme`, as a function of the string value
of the `darkTheme` page-configuration option. -/
def themeSelect (darkTheme : List Char) : List Char :=
  if darkTheme = "true".data then darkThemeName else lightThemeName

/-- The theme plugin's activate step as a function of the page
configuration: `PageConfig.getOption('darkTheme')` returns the stored
string, or the empty string when the option is absent (modelled by
`none`). -/
def themeActivate (cfgDarkTheme : Option (List Char)) : List Char :=
  themeSelect (cfgDarkTheme.getD [])

/-- State of the shell's top panel.  Modelled from the spec: the host shell
base type exposes collapse-top and expand-top hooks over a single
"top panel visible" boolean. -/
structure GriffinShellState where
  topPanelVisible : Bool
deriving DecidableEq, Repr

/-- The base shell's collapse-top hook: hides the top panel. -/
def collapseTop (s : GriffinShellState) : GriffinShellState :=
  { s with topPanelVisible := false }

/-- `GriffinNotebookShell.expandTop`, overridden to do nothing. -/
def griffinExpandTop (s : GriffinShellState) : GriffinShellState := s

/-- The `GriffinNotebookShell` constructor: run the base constructor
(yielding some base state) and then `this.collapseTop()`. -/
def mkGriffinNotebookShell (base : GriffinShellState) : GriffinShellState :=
  collapseTop base

/-- A disposable menu handle.  Modelled from the spec: the host menu bar
exposes named menu handles with a dispose operation. -/
structure DisposableMenu where
  isDisposed : Bool
deriving DecidableEq, Repr

/-- Disposing a menu handle marks it disposed (idempotently). -/
def DisposableMenu.dispose (_m : DisposableMenu) : DisposableMenu :=
  { isDisposed := true }

/-- The host `IMainMenu` menu bar with its named menu handles.  Modelled
from the spec: a menu-bar object exposing named menu handles with a dispose
operation. -/
structure MainMenu where
  fileMenu : DisposableMenu
  editMenu : DisposableMenu
  viewMenu : DisposableMenu
  runMenu : DisposableMenu
  kernelMenu : DisposableMenu
  tabsMenu : DisposableMenu
  settingsMenu : DisposableMenu
  helpMenu : DisposableMenu
deriving DecidableEq, Repr

/-- The menus plugin's activate function:
`menu.fileMenu.dispose(); menu.tabsMenu.dispose();`. -/
def menusActivate (menu : MainMenu) : MainMenu :=
  let menu1 := { menu with fileMenu := menu.fileMenu.dispose }
  { menu1 with tabsMenu := menu1.tabsMenu.dispose }

/-- The options record of the notebook application constructor: the shell
field (absent modelled by `none`), and the remaining option fields bundled
opaquely in `rest`. -/
structure NotebookAppOptions (ρ : Type) where
  shell : Option GriffinShellState
  rest : ρ
deriving DecidableEq, Repr

/-- The `GriffinNotebookApp` constructor's computation of the options passed
to the base constructor:
`constructor(options = { shell: new GriffinNotebookShell() }) {
   super({ ...options, shell: options.shell ?? new GriffinNotebookShell() }) }`.
`opts = none` models a call with no argument (so the default parameter is
used, whose non-shell fields are absent, modelled by `absentRest`); `base`
is the state produced by the base shell constructor inside
`new GriffinNotebookShell()`. -/
def griffinNotebookAppCtor {ρ : Type} (base : GriffinShellState)
    (absentRest : ρ) (opts : Option (NotebookAppOptions ρ)) :
    NotebookAppOptions ρ :=
  let options := opts.getD
    { shell := some (mkGriffinNotebookShell base), rest := absentRest }
  { shell := some (options.shell.getD (mkGriffinNotebookShell base)),
    rest := options.rest }

/-! Helper lemmas. -/

theorem isPrefixOf_eq_true_iff (l₁ l₂ : List Char) :
    l₁.isPrefixOf l₂ = true ↔ ∃ t, l₁ ++ t = l₂ := by
  induction l₁ generalizing l₂ with
  | nil => simp [List.isPrefixOf]
  | cons a as ih =>
    cases l₂ with
    | nil => simp [List.isPrefixOf]
    | cons b bs =>
      simp only [List.isPrefixOf, Bool.and_eq_true, beq_iff_eq, ih, List.cons_append,
        List.cons.injEq]
      constructor
      · rintro ⟨rfl, t, rfl⟩
        exact ⟨t, rfl, rfl⟩
      · rintro ⟨t, rfl, rfl⟩
        exact ⟨rfl, t, rfl⟩

theorem treeMatch_of_isPrefixOf (l : List Char)
    (h : treeSegStr.isPrefixOf l = true) :
    treeMatch l =
      some ((l.drop treeSegStr.length).takeWhile (fun ch => !isLineTerm ch)) := by
  cases l with
  | nil => exact absurd h (by decide)
  | cons c rest =>
    simp only [treeMatch, if_pos h]

theorem treeMatch_seg_append (enc : List Char) :
    treeMatch (treeSegStr ++ enc) =
      some (enc.takeWhile (fun ch => !isLineTerm ch)) := by
  rw [treeMatch_of_isPrefixOf (treeSegStr ++ enc)
    ((isPrefixOf_eq_true_iff _ _).2 ⟨enc, rfl⟩), List.drop_left]

theorem treeMatch_eq_none_iff (p : List Char) :
    treeMatch p = none ↔ ∀ pre post : List Char, p ≠ pre ++ treeSegStr ++ post := by
  induction p with
  | nil =>
    simp only [treeMatch, true_iff]
    intro pre post h
    rcases List.append_eq_nil.1 (List.append_eq_nil.1 h.symm).1 with ⟨-, hseg⟩
    exact absurd hseg (by decide)
  | cons c rest ih =>
    by_cases h : treeSegStr.isPrefixOf (c :: rest) = true
    · simp only [treeMatch, if_pos h]
      obtain ⟨t, ht⟩ := (isPrefixOf_eq_true_iff _ _).1 h
      constructor
      · intro hsome
        exact absurd hsome (by simp)
      · intro hall
        exact absurd ht (fun hh => hall [] t (by simp [hh]))
    · simp only [treeMatch, if_neg h, ih]
      constructor
      · intro hall pre post hEq
        cases pre with
        | nil =>
          exact h ((isPrefixOf_eq_true_iff _ _).2 ⟨post, by simpa using hEq.symm⟩)
        | cons c' pre' =>
          simp only [List.cons_append, List.cons.injEq] at hEq
          exact hall pre' post hEq.2
      · intro hall pre post hEq
        exact hall (c :: pre) post (by simp [hEq])

theorem takeWhile_of_forall (l : List Char) (q : Char → Bool)
    (h : ∀ c ∈ l, q c = true) : l.takeWhile q = l :=
  List.takeWhile_eq_self_iff.2 h

/-- A character the urlencoded format passes through verbatim: ASCII and not
one of `&` (0x26), `=` (0x3D), `+` (0x2B), `%` (0x25) or `?` (0x3F). -/
def PlainQueryChar (c : Char) : Prop :=
  c.toNat < 0x80 ∧ c.toNat ≠ 0x26 ∧ c.toNat ≠ 0x3D ∧ c.toNat ≠ 0x2B ∧
    c.toNat ≠ 0x25 ∧ c.toNat ≠ 0x3F

instance : DecidablePred PlainQueryChar := fun c => by
  unfold PlainQueryChar
  exact inferInstance

theorem plain_ne_amp {c : Char} (h : PlainQueryChar c) : c ≠ '&' :=
  fun hc => h.2.1 (by rw [hc]; rfl)

theorem plain_ne_eqsign {c : Char} (h : PlainQueryChar c) : c ≠ '=' :=
  fun hc => h.2.2.1 (by rw [hc]; rfl)

theorem map_eq_self_of {α : Type} (f : α → α) (l : List α)
    (h : ∀ a ∈ l, f a = a) : l.map f = l := by
  induction l with
  | nil => rfl
  | cons a as ih =>
    rw [List.map_cons, h a (by simp), ih (fun x hx => h x (by simp [hx]))]

theorem strUtf8_ascii (l : List Char) (h : ∀ c ∈ l, c.toNat < 0x80) :
    strUtf8 l = l.map Char.toNat := by
  induction l with
  | nil => rfl
  | cons c cs ih =>
    have hc : charUtf8 c = [c.toNat] := by
      unfold charUtf8
      rw [if_pos (h c (by simp))]
    simp only [strUtf8, List.flatMap_cons, List.map_cons] at *
    rw [hc, ih (fun x hx => h x (by simp [hx]))]
    rfl

theorem percentDecodeBytes_no_pct :
    ∀ l : List Nat, (∀ b ∈ l, b ≠ 0x25) → percentDecodeBytes l = l
  | [], _ => rfl
  | b :: h1 :: h2 :: rest, h => by
    simp only [percentDecodeBytes, if_neg (h b (by simp))]
    rw [percentDecodeBytes_no_pct (h1 :: h2 :: rest)
      (fun x hx => h x (by simp at hx ⊢; tauto))]
  | [b], h => by
    simp only [percentDecodeBytes]
  | [b, b1], h => by
    simp only [percentDecodeBytes]

theorem utf8DecodeRepl_ascii (l : List Nat) (h : ∀ b ∈ l, b ≤ 0x7F) :
    utf8DecodeRepl l = l.map Char.ofNat := by
  induction l with
  | nil => rfl
  | cons b rest ih =>
    rw [utf8DecodeRepl.eq_def]
    simp only [if_pos (h b (by simp)), List.map_cons]
    rw [ih (fun x hx => h x (by simp [hx]))]

theorem formDecode_plain (l : List Char) (h : ∀ c ∈ l, PlainQueryChar c) :
    formDecode l = l := by
  have h1 : strUtf8 l = l.map Char.toNat := strUtf8_ascii l (fun c hc => (h c hc).1)
  have h2 : (l.map Char.toNat).map (fun b => if b = 0x2B then 0x20 else b) =
      l.map Char.toNat := by
    apply map_eq_self_of
    intro b hb
    obtain ⟨c, hc, rfl⟩ := List.mem_map.1 hb
    rw [if_neg (h c hc).2.2.2.1]
  have h3 : percentDecodeBytes (l.map Char.toNat) = l.map Char.toNat := by
    apply percentDecodeBytes_no_pct
    intro b hb
    obtain ⟨c, hc, rfl⟩ := List.mem_map.1 hb
    exact (h c hc).2.2.2.2.1
  have h4 : utf8DecodeRepl (l.map Char.toNat) = (l.map Char.toNat).map Char.ofNat := by
    apply utf8DecodeRepl_ascii
    intro b hb
    obtain ⟨c, hc, rfl⟩ := List.mem_map.1 hb
    have := (h c hc).1
    omega
  unfold formDecode
  rw [h1, h2, h3, h4, List.map_map]
  exact map_eq_self_of _ _ (fun c _ => Char.ofNat_toNat c)

theorem splitAmp_no_amp (l : List Char) (h : ∀ c ∈ l, c ≠ '&') :
    splitAmp l = [l] := by
  induction l with
  | nil => rfl
  | cons c rest ih =>
    simp only [splitAmp, if_neg (h c (by simp))]
    rw [ih (fun x hx => h x (by simp [hx]))]

theorem splitAmp_append (a b : List Char) (h : ∀ c ∈ a, c ≠ '&') :
    splitAmp (a ++ '&' :: b) = a :: splitAmp b := by
  induction a with
  | nil => simp [splitAmp]
  | cons c rest ih =>
    simp only [List.cons_append, splitAmp, if_neg (h c (by simp)), List.append_eq]
    rw [ih (fun x hx => h x (by simp [hx]))]

theorem splitEq_append (n v : List Char) (h : ∀ c ∈ n, c ≠ '=') :
    splitEq (n ++ '=' :: v) = (n, v) := by
  induction n with
  | nil => simp [splitEq]
  | cons c rest ih =>
    simp only [List.cons_append, splitEq, if_neg (h c (by simp)), List.append_eq]
    rw [ih (fun x hx => h x (by simp [hx]))]

/-- A raw query string assembled from name=value pieces joined by `&`. -/
def buildQuery : List (List Char × List Char) → List Char
  | [] => []
  | [p] => p.1 ++ '=' :: p.2
  | p :: q :: rest => p.1 ++ '=' :: (p.2 ++ '&' :: buildQuery (q :: rest))

theorem seg_not_empty (n v : List Char) : (n ++ '=' :: v).isEmpty = false := by
  cases n <;> rfl

theorem seg_decode (n v : List Char)
    (h1 : ∀ c ∈ n, PlainQueryChar c) (h2 : ∀ c ∈ v, PlainQueryChar c) :
    (formDecode (splitEq (n ++ '=' :: v)).1, formDecode (splitEq (n ++ '=' :: v)).2) =
      (n, v) := by
  rw [splitEq_append _ _ (fun c hc => plain_ne_eqsign (h1 c hc))]
  rw [formDecode_plain _ h1, formDecode_plain _ h2]

theorem segs_buildQuery (l : List (List Char × List Char))
    (h : ∀ p ∈ l, (∀ c ∈ p.1, PlainQueryChar c) ∧ (∀ c ∈ p.2, PlainQueryChar c)) :
    ((splitAmp (buildQuery l)).filter (fun s => !s.isEmpty)).map
      (fun s => (formDecode (splitEq s).1, formDecode (splitEq s).2)) = l := by
  induction l with
  | nil => rfl
  | cons p rest ih =>
    have hp := h p (by simp)
    have hamp : ∀ c ∈ p.1 ++ '=' :: p.2, c ≠ '&' := by
      intro c hc
      rcases List.mem_append.1 hc with hc1 | hc2
      · exact plain_ne_amp (hp.1 c hc1)
      · rcases List.mem_cons.1 hc2 with rfl | hc3
        · decide
        · exact plain_ne_amp (hp.2 c hc3)
    cases rest with
    | nil =>
      show ((splitAmp (p.1 ++ '=' :: p.2)).filter (fun s => !s.isEmpty)).map
        (fun s => (formDecode (splitEq s).1, formDecode (splitEq s).2)) = [p]
      rw [splitAmp_no_amp _ hamp]
      simp only [List.filter, seg_not_empty, Bool.not_false, List.map_cons, List.map_nil]
      rw [seg_decode p.1 p.2 hp.1 hp.2]
    | cons q rest2 =>
      show ((splitAmp (p.1 ++ '=' :: (p.2 ++ '&' :: buildQuery (q :: rest2)))).filter
          (fun s => !s.isEmpty)).map
        (fun s => (formDecode (splitEq s).1, formDecode (splitEq s).2)) = p :: q :: rest2
      rw [show p.1 ++ '=' :: (p.2 ++ '&' :: buildQuery (q :: rest2)) =
        (p.1 ++ '=' :: p.2) ++ '&' :: buildQuery (q :: rest2) by simp]
      rw [splitAmp_append _ _ hamp]
      simp only [List.filter, seg_not_empty, Bool.not_false, List.map_cons]
      rw [seg_decode p.1 p.2 hp.1 hp.2]
      rw [ih (fun x hx => h x (by simp [hx]))]

theorem queryPairs_buildQuery (l : List (List Char × List Char))
    (h : ∀ p ∈ l, (∀ c ∈ p.1, PlainQueryChar c) ∧ (∀ c ∈ p.2, PlainQueryChar c)) :
    queryPairs ('?' :: buildQuery l) = l := by
  show ((splitAmp (buildQuery l)).filter (fun s => !s.isEmpty)).map
    (fun s => (formDecode (splitEq s).1, formDecode (splitEq s).2)) = l
  exact segs_buildQuery l h

theorem findSome_if_eq_find (key : List Char) (l : List (List Char × List Char)) :
    l.findSome? (fun p => if p.1 = key then some p.2 else none) =
      (l.find? (fun p => p.1 == key)).map Prod.snd := by
  induction l with
  | nil => rfl
  | cons p rest ih =>
    by_cases hp : p.1 = key
    · simp [List.findSome?_cons, List.find?_cons, hp]
    · simp [List.findSome?_cons, List.find?_cons, hp, ih]

/-! Claim theorems. -/

/-- Claim C1, counterexample: the path `/x/griffin-notebooks/a` does not
begin with the fixed tree segment `/griffin-notebooks/`, yet the
`router:tree` command does take action on it: `TREE_PATTERN` is unanchored,
so it matches the segment occurring later in the path and a document-open
request for `a` is produced. -/
theorem claim_C1_counterexample :
    treeSegStr.isPrefixOf "/x/griffin-notebooks/a".data = false ∧
    routerTreeExecute { path := "/x/griffin-notebooks/a".data, search := [] } =
      ExecResult.opened
        { file := "a".data, factory := "default".data, ref := "_noref".data } := by
  constructor
  · decide
  · decide

/-- Claim C1, amended: for every input path that does not contain the fixed
tree segment `/griffin-notebooks/` anywhere (the pattern is unanchored, so
mere failure to begin with the segment is not enough), the `router:tree`
command takes no action: no document-open request and no thrown error. -/
theorem claim_C1_theorem (loc : RouteLocation)
    (h : ∀ pre post : List Char, loc.path ≠ pre ++ treeSegStr ++ post) :
    routerTreeExecute loc = ExecResult.noAction := by
  unfold routerTreeExecute
  rw [(treeMatch_eq_none_iff loc.path).2 h]

/-- Claim C1, witness: the command takes no action on `/tree/a.ipynb`,
which nowhere contains the tree segment (shown by a length argument). -/
theorem claim_C1_witness :
    routerTreeExecute { path := "/tree/a.ipynb".data, search := [] } =
      ExecResult.noAction :=
  claim_C1_theorem { path := "/tree/a.ipynb".data, search := [] } (by
    intro pre post hEq
    have hlen := congrArg List.length hEq
    have h19 : treeSegStr.length = 19 := by decide
    have h13 : ("/tree/a.ipynb".data).length = 13 := by decide
    simp only [List.length_append, h19, h13] at hlen
    omega)

/-- Claim C2, counterexample: the path `/griffin-notebooks/%` matches the
tree pattern with captured remainder `%`, which is malformed
percent-encoding, and the command throws (`decodeURIComponent` raises a
`URIError`), contradicting the claim that it never throws for matched
paths. -/
theorem claim_C2_counterexample :
    treeMatch "/griffin-notebooks/%".data = some "%".data ∧
    decodeURIComponent "%".data = none ∧
    routerTreeExecute { path := "/griffin-notebooks/%".data, search := [] } =
      ExecResult.thrown := by
  refine ⟨by decide, by decide, by decide⟩

/-- Claim C2, amended: the `router:tree` command throws exactly when the
path matches the tree pattern with a non-empty captured remainder that is
malformed percent-encoding (then `decodeURIComponent` raises a `URIError`
which propagates to the host); in every other case the command either
issues an open request or silently does nothing. -/
theorem claim_C2_theorem (loc : RouteLocation) :
    routerTreeExecute loc = ExecResult.thrown ↔
      ∃ cap, treeMatch loc.path = some cap ∧ cap ≠ [] ∧
        decodeURIComponent cap = none := by
  cases hm : treeMatch loc.path with
  | none =>
    simp [routerTreeExecute, hm]
  | some cap =>
    by_cases hc : cap.isEmpty = true
    · have hcap : cap = [] := by simpa [List.isEmpty_iff] using hc
      subst hcap
      simp [routerTreeExecute, hm]
    · have hcap : cap ≠ [] := by simpa [List.isEmpty_iff] using hc
      cases hd : decodeURIComponent cap with
      | none =>
        simp only [routerTreeExecute, hm, if_neg hc, hd, true_iff]
        exact ⟨cap, rfl, hcap, hd⟩
      | some file =>
        simp [routerTreeExecute, hm, if_neg hc, hd, hcap]

/-- Claim C3, counterexample: for the path `/griffin-notebooks/a\nb` (whose
remainder after the tree segment is the non-empty string `a`, newline, `b`)
the command does not extract the full remainder: the regular-expression
atom `.` does not match line terminators, so only `a` is captured and
opened. -/
theorem claim_C3_counterexample :
    treeMatch (treeSegStr ++ ['a', '\n', 'b']) = some ['a'] ∧
    (['a'] : List Char) ≠ ['a', '\n', 'b'] ∧
    routerTreeExecute { path := (treeSegStr ++ ['a', '\n', 'b']), search := [] } =
      ExecResult.opened
        { file := ['a'], factory := "default".data, ref := "_noref".data } := by
  refine ⟨by decide, by decide, by decide⟩

/-- Claim C3, amended: for every path of the form
`/griffin-notebooks/<encoded-id>` with non-empty `<encoded-id>` containing
no line-terminator characters, the matcher extracts exactly `<encoded-id>`,
and when its percent-decoding succeeds the command requests that the
decoded document be opened (with the factory resolved from the query and
`ref` equal to `_noref`). -/
theorem claim_C3_theorem (enc d search : List Char) (hne : enc ≠ [])
    (hterm : ∀ c ∈ enc, isLineTerm c = false)
    (hdec : decodeURIComponent enc = some d) :
    treeMatch (treeSegStr ++ enc) = some enc ∧
    routerTreeExecute { path := (treeSegStr ++ enc), search := search } =
      ExecResult.opened
        { file := d, factory := getFactoryParam search, ref := "_noref".data } := by
  have hcap : treeMatch (treeSegStr ++ enc) = some enc := by
    rw [treeMatch_seg_append]
    rw [takeWhile_of_forall enc _ (fun c hc => by rw [hterm c hc]; rfl)]
  refine ⟨hcap, ?_⟩
  have hemp : enc.isEmpty ≠ true := by simpa [List.isEmpty_iff] using hne
  simp [routerTreeExecute, hcap, if_neg hemp, hdec, hne]

/-- Claim C3, witness, the spec's end-to-end example: the path
`/griffin-notebooks/foo%2Fbar.ipynb` with query `?factory=Notebook` yields
an open request for document `foo/bar.ipynb` with view kind `Notebook`. -/
theorem claim_C3_witness :
    treeMatch (treeSegStr ++ "foo%2Fbar.ipynb".data) =
      some "foo%2Fbar.ipynb".data ∧
    routerTreeExecute { path := (treeSegStr ++ "foo%2Fbar.ipynb".data),
                        search := "?factory=Notebook".data } =
      ExecResult.opened
        { file := "foo/bar.ipynb".data, factory := "Notebook".data,
          ref := "_noref".data } := by
  have h := claim_C3_theorem "foo%2Fbar.ipynb".data "foo/bar.ipynb".data
    "?factory=Notebook".data (by decide) (by decide) (by decide)
  refine ⟨h.1, ?_⟩
  rw [h.2]
  decide

/-- Claim C4, confirmed: the theme selection is a pure total function of
the `darkTheme` page-configuration value; it is the dark theme identifier
exactly when the stored string equals `true`, and the light theme
identifier for every other string and for an absent option, with no third
outcome. -/
theorem claim_C4_theorem (opt : Option (List Char)) :
    (themeActivate opt = darkThemeName ∨ themeActivate opt = lightThemeName) ∧
    (themeActivate opt = darkThemeName ↔ opt = some "true".data) := by
  have hne : darkThemeName ≠ lightThemeName := by decide
  have hkey : opt.getD [] = "true".data ↔ opt = some "true".data := by
    cases opt with
    | none => decide
    | some s => simp
  constructor
  · by_cases h : opt.getD [] = "true".data
    · exact Or.inl (by unfold themeActivate themeSelect; rw [if_pos h])
    · exact Or.inr (by unfold themeActivate themeSelect; rw [if_neg h])
  · unfold themeActivate themeSelect
    by_cases h : opt.getD [] = "true".data
    · rw [if_pos h]
      exact iff_of_true rfl (hkey.1 h)
    · rw [if_neg h]
      exact iff_of_false (fun hl => hne hl.symm) (fun ho => h (hkey.2 ho))

/-- Claim C5, confirmed: whenever the match against the tree pattern yields
no captured remainder (no match at all) or an empty captured remainder, the
`router:tree` command performs no document-open action. -/
theorem claim_C5_theorem (loc : RouteLocation)
    (h : treeMatch loc.path = none ∨ treeMatch loc.path = some []) :
    routerTreeExecute loc = ExecResult.noAction := by
  rcases h with h | h <;> simp [routerTreeExecute, h]

/-- Claim C5, witness, the spec's end-to-end example: the path
`/griffin-notebooks/` has an empty captured remainder and produces no open
action. -/
theorem claim_C5_witness :
    routerTreeExecute { path := "/griffin-notebooks/".data, search := [] } =
      ExecResult.noAction :=
  claim_C5_theorem { path := "/griffin-notebooks/".data, search := [] }
    (Or.inr (by decide))

/-- Claim C6, confirmed: after construction of `GriffinNotebookShell` the
top panel is hidden, and any number of `expandTop` invocations leaves the
shell state unchanged with the panel still hidden (the overridden
`expandTop` is a no-op, and `collapseTop` preserves hiddenness as well). -/
theorem claim_C6_theorem (base : GriffinShellState) (n : Nat) :
    (mkGriffinNotebookShell base).topPanelVisible = false ∧
    griffinExpandTop^[n] (mkGriffinNotebookShell base) =
      mkGriffinNotebookShell base ∧
    (griffinExpandTop^[n] (mkGriffinNotebookShell base)).topPanelVisible = false ∧
    (collapseTop (mkGriffinNotebookShell base)).topPanelVisible = false := by
  have hiter : griffinExpandTop^[n] (mkGriffinNotebookShell base) =
      mkGriffinNotebookShell base := by
    rw [show griffinExpandTop = id from rfl, Function.iterate_id, id_eq]
  exact ⟨rfl, hiter, by rw [hiter]; rfl, rfl⟩

/-- Claim C7, counterexample: the query string `factory=a&factory=b`
contains the text `factory=b`, yet the resolved view kind is `a` — the
value of the first `factory` pair — and not `b`. -/
theorem claim_C7_counterexample :
    (∃ t₁ t₂ : List Char,
      t₁ ++ "factory=b".data ++ t₂ = "factory=a&factory=b".data) ∧
    getFactoryParam "?factory=a&factory=b".data = "a".data ∧
    "a".data ≠ "b".data := by
  refine ⟨⟨"factory=a&".data, [], by decide⟩, by decide, by decide⟩

/-- Claim C7, amended: for a query string assembled from name=value pairs
over characters the urlencoded format passes through verbatim, the resolved
view kind equals the value of the first pair whose name is `factory`, and
the literal `default` when no pair is named `factory`; a mere substring
occurrence of `factory=<name>` does not determine the result. -/
theorem claim_C7_theorem (l : List (List Char × List Char))
    (h : ∀ p ∈ l, (∀ c ∈ p.1, PlainQueryChar c) ∧ (∀ c ∈ p.2, PlainQueryChar c)) :
    getFactoryParam ('?' :: buildQuery l) =
      ((l.find? (fun p => p.1 == factoryKey)).map Prod.snd).getD "default".data := by
  unfold getFactoryParam queryGet
  rw [queryPairs_buildQuery l h, findSome_if_eq_find]

/-- Claim C7, witness: a query with the single pair `factory=Notebook`
resolves to `Notebook`, and one with only the pair `a=1` resolves to the
default name. -/
theorem claim_C7_witness :
    getFactoryParam ('?' :: buildQuery [("factory".data, "Notebook".data)]) =
      "Notebook".data ∧
    getFactoryParam ('?' :: buildQuery [("a".data, "1".data)]) =
      "default".data := by
  constructor
  · rw [claim_C7_theorem [("factory".data, "Notebook".data)] (by decide)]
    decide
  · rw [claim_C7_theorem [("a".data, "1".data)] (by decide)]
    decide

/-- Claim C8, confirmed: the menus plugin disposes exactly the file menu
and the tabs menu, and every other menu handle of the menu bar is left
untouched. -/
theorem claim_C8_theorem (menu : MainMenu) :
    (menusActivate menu).fileMenu.isDisposed = true ∧
    (menusActivate menu).tabsMenu.isDisposed = true ∧
    (menusActivate menu).editMenu = menu.editMenu ∧
    (menusActivate menu).viewMenu = menu.viewMenu ∧
    (menusActivate menu).runMenu = menu.runMenu ∧
    (menusActivate menu).kernelMenu = menu.kernelMenu ∧
    (menusActivate menu).settingsMenu = menu.settingsMenu ∧
    (menusActivate menu).helpMenu = menu.helpMenu :=
  ⟨rfl, rfl, rfl, rfl, rfl, rfl, rfl, rfl⟩

/-- Claim C9, confirmed: with no options at all, or with an options record
whose shell field is absent, the base application receives a freshly
constructed `GriffinNotebookShell`; a supplied shell and all other supplied
option fields are forwarded unchanged. -/
theorem claim_C9_theorem {ρ : Type} (base : GriffinShellState) (absentRest : ρ)
    (o : NotebookAppOptions ρ) :
    griffinNotebookAppCtor base absentRest none =
      { shell := some (mkGriffinNotebookShell base), rest := absentRest } ∧
    (o.shell = none →
      griffinNotebookAppCtor base absentRest (some o) =
        { shell := some (mkGriffinNotebookShell base), rest := o.rest }) ∧
    (∀ s, o.shell = some s →
      griffinNotebookAppCtor base absentRest (some o) =
        { shell := some s, rest := o.rest }) := by
  refine ⟨rfl, ?_, ?_⟩
  · intro h
    simp [griffinNotebookAppCtor, h]
  · intro s h
    simp [griffinNotebookAppCtor, h]

/-- Claim C9, witness: an options record without a shell receives the fresh
collapsed shell with other fields kept, and a supplied shell is forwarded
as is. -/
theorem claim_C9_witness :
    griffinNotebookAppCtor { topPanelVisible := true } (0 : Nat)
        (some { shell := none, rest := 5 }) =
      { shell := some { topPanelVisible := false }, rest := 5 } ∧
    griffinNotebookAppCtor { topPanelVisible := true } (0 : Nat)
        (some { shell := some { topPanelVisible := true }, rest := 7 }) =
      { shell := some { topPanelVisible := true }, rest := 7 } := by
  constructor
  · exact (claim_C9_theorem { topPanelVisible := true } 0
      { shell := none, rest := 5 }).2.1 rfl
  · exact (claim_C9_theorem { topPanelVisible := true } 0
      { shell := some { topPanelVisible := true }, rest := 7 }).2.2
      { topPanelVisible := true } rfl

/-- Claim C10, confirmed: a query containing `factory=` with an empty value
resolves the view kind to the empty string, not to `default`; the default
name is substituted exactly when the lookup returns null, that is, when the
`factory` key is absent. -/
theorem claim_C10_theorem (search v : List Char) :
    getFactoryParam "?factory=".data = [] ∧
    ([] : List Char) ≠ "default".data ∧
    (queryGet factoryKey search = some v → getFactoryParam search = v) ∧
    (queryGet factoryKey search = none →
      getFactoryParam search = "default".data) := by
  refine ⟨by decide, by decide, fun h => ?_, fun h => ?_⟩ <;>
    simp [getFactoryParam, h]

/-- Claim C10, witness: the query `?factory=` resolves to the empty string
while the query `?x=1` (no `factory` key) resolves to `default`. -/
theorem claim_C10_witness :
    getFactoryParam "?factory=".data = [] ∧
    getFactoryParam "?x=1".data = "default".data := by
  have h1 := claim_C10_theorem "?factory=".data []
  have h2 := claim_C10_theorem "?x=1".data []
  exact ⟨h1.2.2.1 (by decide), h2.2.2.2 (by decide)⟩

end GriffinNotebook
